import Mathlib

/-!
Verification of the odds-update pipeline of the Odds repository.

The repository consists of four JavaScript scripts, each a variant of the same
pipeline: fetch prediction-market data (Polymarket by slug, Polymarket bulk
search, Kalshi by series), convert win probabilities to American-odds strings,
match market names against a stored canonical nominee list, and write back the
matched odds.

Modelling conventions used throughout this file:
- JavaScript numbers that hold probabilities and prices are modelled as exact
  rationals; Math.round is the floor of x + 1/2, which agrees with the
  JavaScript semantics on finite inputs.
- Strings are modelled by Lean strings; toLowerCase is mapped over the
  character list (ASCII case folding, which covers every name the scripts
  handle); a.includes(b) is an executable infix test on character lists.
- JSON-over-HTTP effects are modelled by explicit outcome data: a fetch either
  raises a network error, or yields a response with an ok flag and a body that
  is either unusable (empty, unparseable, or not of the expected shape) or
  already decoded into the record shapes the scripts read.
- Fields that JavaScript reads with truthiness checks are modelled as Option,
  with none standing for an absent or falsy value.
- Thrown-and-caught exceptions are modelled by the value the catching handler
  returns.
-/

/-! ## JavaScript string and number primitives -/

/-- ASCII lowercase of a string, modelling String.prototype.toLowerCase on the
ASCII names the scripts process. -/
def jsToLower (s : String) : String :=
  String.mk (s.data.map Char.toLower)

/-- Does the list hay start with the list needle. -/
def strStarts : List Char → List Char → Bool
  | [], _ => true
  | _ :: _, [] => false
  | c :: cs, d :: ds => c == d && strStarts cs ds

/-- Does the list needle occur contiguously inside the list hay. -/
def strContains (hay needle : List Char) : Bool :=
  match hay with
  | [] => strStarts needle []
  | _ :: t => strStarts needle hay || strContains t needle

/-- Model of a.includes(b) for JavaScript strings. -/
def jsIncludes (a b : String) : Bool :=
  strContains a.data b.data

/-- Model of Math.round on a finite number: floor of x + 1/2. -/
def jsRound (q : ℚ) : ℤ :=
  ⌊q + 1/2⌋

/-! ## OddsConverter

Translated from probToAmericanOdds in src/scripts/update-polymarket.js
(lines 14-23; the same function is repeated verbatim in the other scripts).
The parseFloat applied to the incoming number is the identity on numbers and
is dropped. -/

/-- probToAmericanOdds from src/scripts/update-polymarket.js lines 14-23. -/
def probToAmericanOdds (p : ℚ) : String :=
  if 1/2 ≤ p then
    toString (jsRound (-(p * 100) / (1 - p)))
  else
    "+" ++ toString (jsRound ((1 - p) * 100 / p))

/-- kalshiPriceToAmericanOdds from src/scripts/update-kalshi-bafta.js
lines 16-26: divides the cents price by 100 and then applies the same two
branches as probToAmericanOdds. -/
def kalshiPriceToAmericanOdds (priceInCents : ℚ) : String :=
  let prob := priceInCents / 100
  if 1/2 ≤ prob then
    toString (jsRound (-(prob * 100) / (1 - prob)))
  else
    "+" ++ toString (jsRound ((1 - prob) * 100 / prob))

/-- The denominator of the division performed by the branch of
probToAmericanOdds that a given probability takes: 1 - p on the high branch,
p on the low branch. -/
def oddsDenominator (p : ℚ) : ℚ :=
  if 1/2 ≤ p then 1 - p else p

/-- probToAmericanOdds applied to an optional probability. A missing price
entry makes parseFloat return NaN in the scripts; NaN fails the >= 0.5 test,
Math.round of the NaN quotient is NaN, and the template string renders +NaN. -/
def probToAmericanOddsOpt : Option ℚ → String
  | some p => probToAmericanOdds p
  | none => "+NaN"


/-! ## Data model

NormalizedQuote as produced by the Polymarket and Kalshi adapters. The bulk
variant in src/unnamed/part_001 also records the probability, which it sorts
by. -/

/-- A quote as pushed by fetchPolymarketData, fetchCategory and
fetchKalshiData: a name and an American-odds string. -/
structure Quote where
  name : String
  odds : String
deriving DecidableEq

/-- A quote as pushed by extractNominees in src/unnamed/part_001, which also
keeps the probability for sorting. -/
structure QuoteP where
  name : String
  probability : ℚ
  odds : String
deriving DecidableEq

/-- A JSON-string field of a raw market record: absent (or not a string),
present but failing JSON.parse, or parsed to a value. -/
inductive JsonField (α : Type) where
  | absent
  | malformed
  | parsed (v : α)
deriving DecidableEq

/-- A raw Polymarket market record, restricted to the fields the scripts
read. outcomePrices parses to the list of outcome prices (price strings are
modelled as the rationals parseFloat yields from them), outcomes to the list
of outcome names. Option none models an absent or falsy field. -/
structure RawMarket where
  outcomePrices : JsonField (List ℚ)
  outcomes : JsonField (List String)
  groupItemTitle : Option String
  question : Option String
deriving DecidableEq

/-- A raw Polymarket event record: its markets sub-list, none when the field
is absent. -/
structure Event where
  markets : Option (List RawMarket)
deriving DecidableEq

/-- Outcome of one HTTP fetch: the promise rejects (network error), or a
response arrives with an ok flag and a body. Body none models a body that is
empty, fails JSON.parse, or does not decode to the expected shape. -/
inductive FetchOutcome (β : Type) where
  | netError
  | response (ok : Bool) (body : Option β)

/-! ## Denylist patterns

The regular expressions on line 47 of src/scripts/update-polymarket.js and
line 121 of src/unnamed/part_001 read
(caret)(Other|Movie [A-Z]|Actor [A-Z]|Actress [A-Z]|Director [A-Z]|Film [A-Z])(dollar)
with the i flag; line 241 of src/scripts/update-polymarket.js uses only
(caret)(Other|Film [A-Z])(dollar) with the i flag. Case-insensitivity is
modelled by lowering the name first, so the letter class becomes a-z. -/

/-- Is the character a lowercase ASCII letter. -/
def isAtoZ (c : Char) : Bool :=
  97 ≤ c.toNat && c.toNat ≤ 122

/-- Does the lowered character list l consist exactly of the leading word
lead followed by one ASCII letter. -/
def placeholderPat (lead : List Char) (l : List Char) : Bool :=
  l.take lead.length == lead &&
    match l.drop lead.length with
    | [c] => isAtoZ c
    | _ => false

/-- The full placeholder denylist of fetchPolymarketData and extractNominees. -/
def isPlaceholderFull (name : String) : Bool :=
  let l := (jsToLower name).data
  l == "other".data ||
  placeholderPat "movie ".data l ||
  placeholderPat "actor ".data l ||
  placeholderPat "actress ".data l ||
  placeholderPat "director ".data l ||
  placeholderPat "film ".data l

/-- The reduced placeholder denylist of fetchCategory. -/
def isPlaceholderFC (name : String) : Bool :=
  let l := (jsToLower name).data
  l == "other".data || placeholderPat "film ".data l

/-! ## Polymarket by-slug adapter, first variant

fetchPolymarketData from src/scripts/update-polymarket.js lines 26-64.
The function never reads response.ok; a JSON.parse failure of the whole body,
a non-array body and an empty array all yield the empty list, and each market
is handled inside its own try block. -/

/-- Per-market step of fetchPolymarketData: skip when outcomePrices is not a
string (the typeof guard) or fails to parse (the per-item catch), when the
name is falsy, or when the name matches the full denylist. -/
def parseMarketV1 (market : RawMarket) : Option Quote :=
  match market.outcomePrices with
  | .absent => none
  | .malformed => none
  | .parsed prices =>
    match market.groupItemTitle with
    | none => none
    | some name =>
      if isPlaceholderFull name then none
      else some ⟨name, probToAmericanOddsOpt prices.head?⟩

/-- fetchPolymarketData from src/scripts/update-polymarket.js lines 26-64. -/
def fetchPolymarketData : FetchOutcome (List Event) → List Quote
  | .netError => []
  | .response _ none => []
  | .response _ (some []) => []
  | .response _ (some (event :: _)) =>
    match event.markets with
    | none => []
    | some markets => markets.filterMap parseMarketV1

/-! ## Polymarket by-slug adapter, second variant

fetchCategory from the second script held in src/scripts/update-polymarket.js
(lines 197-254 of the file). It checks response.ok and an empty body, maps
over the markets with no per-item try block, and filters with the reduced
denylist. A single market whose outcomePrices is absent or unparseable makes
JSON.parse throw inside the map; the outer catch then returns null. -/

/-- Does this market make the map inside fetchCategory throw. -/
def marketThrowsFC (market : RawMarket) : Bool :=
  match market.outcomePrices with
  | .parsed _ => false
  | _ => true

/-- Per-market step of fetchCategory once no market throws: the map builds a
quote and the filter drops falsy names and reduced-denylist names. -/
def parseMarketFC (market : RawMarket) : Option Quote :=
  match market.outcomePrices with
  | .parsed prices =>
    match market.groupItemTitle with
    | none => none
    | some name =>
      if isPlaceholderFC name then none
      else some ⟨name, probToAmericanOddsOpt prices.head?⟩
  | _ => none

/-- fetchCategory from src/scripts/update-polymarket.js (second script,
lines 197-254). none models the null return. -/
def fetchCategory : FetchOutcome (List Event) → Option (List Quote)
  | .netError => none
  | .response false _ => none
  | .response true none => none
  | .response true (some []) => none
  | .response true (some (event :: _)) =>
    match event.markets with
    | none => none
    | some [] => none
    | some markets =>
      if markets.any marketThrowsFC then none
      else some (markets.filterMap parseMarketFC)

/-! ## Polymarket by-slug adapter, third variant

fetchPolymarketData from the second script held in src/unnamed/part_000
(lines 181-209 of the file). Its body reads event.markets, but the variable
event is never declared there; whenever the guard on data passes, the
ReferenceError is caught and the function returns the empty list, so no
market of any response is ever returned. -/

/-- fetchPolymarketData from src/unnamed/part_000 lines 181-209. -/
def fetchPolymarketDataP000 : FetchOutcome (List Event) → List Quote
  | .netError => []
  | .response _ none => []
  | .response _ (some []) => []
  | .response _ (some (_ :: _)) => []

/-! ## Polymarket bulk-search adapter

fetchAllOscarsMarkets and extractNominees from src/unnamed/part_001. The
pagination loop requests pages of 100 markets; a network error or a non-ok
status throws, the outer catch returns the empty list; a non-array or empty
page breaks; a short page breaks; after a full page the offset advances by
100 and the loop breaks once the offset reaches 500. The model also counts
the requests issued. -/

/-- Does the market question mention the award season, as filtered on lines
63-68 of src/unnamed/part_001. -/
def isOscarsMarket (m : RawMarket) : Bool :=
  match m.question with
  | some q => jsIncludes q "Oscars 2026" || jsIncludes q "Academy Awards 2026"
  | none => false

/-- Outcome of one listing-page request: fail covers a rejected fetch and a
non-ok status (both throw in the source), page carries the decoded body,
none standing for a body that is not a JSON array. -/
inductive PageResp where
  | fail
  | page (body : Option (List RawMarket))

/-- The pagination loop of fetchAllOscarsMarkets, returning the accumulated
award-season markets and the number of listing requests issued. -/
def fetchGo (pages : Nat → PageResp) (offset : Nat) (acc : List RawMarket)
    (reqs : Nat) : List RawMarket × Nat :=
  match pages offset with
  | .fail => ([], reqs + 1)
  | .page none => (acc, reqs + 1)
  | .page (some []) => (acc, reqs + 1)
  | .page (some markets) =>
    if markets.length < 100 then
      (acc ++ markets.filter isOscarsMarket, reqs + 1)
    else if 500 ≤ offset + 100 then
      (acc ++ markets.filter isOscarsMarket, reqs + 1)
    else
      fetchGo pages (offset + 100) (acc ++ markets.filter isOscarsMarket)
        (reqs + 1)
termination_by 500 - offset
decreasing_by simp_wf; omega

/-- fetchAllOscarsMarkets from src/unnamed/part_001 lines 36-92. -/
def fetchAllOscarsMarkets (pages : Nat → PageResp) : List RawMarket × Nat :=
  fetchGo pages 0 [] 0

/-- The value a JSON-string list field contributes inside extractNominees:
an absent field falls back to the empty list, a malformed one throws
(none, caught by the per-item handler), a parsed one gives its value. -/
def jsonListVal {α : Type} : JsonField (List α) → Option (List α)
  | .absent => some []
  | .malformed => none
  | .parsed l => some l

/-- Per-market step of extractNominees (src/unnamed/part_001 lines 108-132):
parse outcomes and outcomePrices inside a per-item try, take the name from
groupItemTitle or else the first outcome, require a truthy name and a
non-empty price list, and drop full-denylist names. -/
def parseMarketP1 (market : RawMarket) : Option QuoteP :=
  match jsonListVal market.outcomes with
  | none => none
  | some outcomes =>
    match jsonListVal market.outcomePrices with
    | none => none
    | some outcomePrices =>
      match market.groupItemTitle.orElse (fun _ => outcomes.head?) with
      | none => none
      | some name =>
        match outcomePrices.head? with
        | none => none
        | some probability =>
          if name.isEmpty then none
          else if isPlaceholderFull name then none
          else some ⟨name, probability, probToAmericanOdds probability⟩

/-- The category filter at the head of extractNominees: does the market
question contain the category search string. -/
def questionMatches (categorySearch : String) (m : RawMarket) : Bool :=
  match m.question with
  | some q => jsIncludes q categorySearch
  | none => false

/-- extractNominees from src/unnamed/part_001 lines 95-138: filter the bulk
markets by the category search string, parse each per-item, and sort by
descending probability (stable sort, as the V8 Array.prototype.sort is). -/
def extractNominees (markets : List RawMarket) (categorySearch : String) :
    List QuoteP :=
  ((markets.filter (questionMatches categorySearch)).filterMap
    parseMarketP1).mergeSort fun a b =>
    decide (b.probability ≤ a.probability)

/-! ## Kalshi-by-series adapter

fetchKalshiData from src/scripts/update-kalshi-bafta.js lines 29-71. It
checks response.ok, reads data.markets, takes the name from title or else
subtitle, and admits any market whose yes_price is neither undefined nor
null, with no denylist. -/

/-- A raw Kalshi market record restricted to the fields read: title and
subtitle (none for absent or falsy), and yes_price in cents (none for
undefined or null; the strict inequality checks admit 0). -/
structure KalshiMarket where
  title : Option String
  subtitle : Option String
  yes : Option ℚ
deriving DecidableEq

/-- The decoded Kalshi response body: its markets field, none when absent. -/
structure KalshiResp where
  markets : Option (List KalshiMarket)

/-- Per-market step of fetchKalshiData lines 47-64. -/
def parseKalshiMarket (market : KalshiMarket) : Option Quote :=
  match market.title.orElse (fun _ => market.subtitle) with
  | none => none
  | some name =>
    match market.yes with
    | none => none
    | some yesPrice => some ⟨name.trim, kalshiPriceToAmericanOdds yesPrice⟩

/-- fetchKalshiData from src/scripts/update-kalshi-bafta.js lines 29-71. -/
def fetchKalshiData : FetchOutcome KalshiResp → List Quote
  | .netError => []
  | .response false _ => []
  | .response true none => []
  | .response true (some resp) =>
    match resp.markets with
    | none => []
    | some [] => []
    | some markets => markets.filterMap parseKalshiMarket

/-! ## NomineeMatcher

Each updater locates, for one canonical nominee, the first quote of the
quote list satisfying its predicate, via Array.prototype.find. The
predicates differ between scripts: update-polymarket.js lines 96-100 lowers
both sides of every comparison; update-kalshi-bafta.js lines 103-107 tests
the same three comparisons with the equality last; src/unnamed/part_001
lines 170-174 lowers only the equality and runs both includes tests on the
original case. -/

/-- The match predicate of updateCategory in src/scripts/update-polymarket.js
lines 96-100: case-insensitive equality, or either lowered name contained in
the other. -/
def quoteMatchesCI (quoteName nomineeName : String) : Bool :=
  jsToLower quoteName == jsToLower nomineeName ||
  jsIncludes (jsToLower quoteName) (jsToLower nomineeName) ||
  jsIncludes (jsToLower nomineeName) (jsToLower quoteName)

/-- The matcher of update-polymarket.js: first quote satisfying
quoteMatchesCI, in quote-list order. -/
def findMatch (quotes : List Quote) (nomineeName : String) : Option Quote :=
  quotes.find? fun p => quoteMatchesCI p.name nomineeName

/-- The match predicate of updateCategory in update-kalshi-bafta.js
lines 103-107: the same three comparisons with the equality test last. -/
def quoteMatchesKalshi (quoteName nomineeName : String) : Bool :=
  jsIncludes (jsToLower quoteName) (jsToLower nomineeName) ||
  jsIncludes (jsToLower nomineeName) (jsToLower quoteName) ||
  jsToLower quoteName == jsToLower nomineeName

/-- The matcher of update-kalshi-bafta.js. -/
def findMatchKalshi (quotes : List Quote) (nomineeName : String) :
    Option Quote :=
  quotes.find? fun k => quoteMatchesKalshi k.name nomineeName

/-- The match predicate of updateCategory in src/unnamed/part_001
lines 170-174: the equality lowers both sides, but both includes tests run
on the original, case-sensitive names. -/
def quoteMatchesP1 (quoteName nomineeName : String) : Bool :=
  jsToLower quoteName == jsToLower nomineeName ||
  jsIncludes quoteName nomineeName ||
  jsIncludes nomineeName quoteName

/-- The matcher of src/unnamed/part_001. -/
def findMatchP1 (quotes : List QuoteP) (nomineeName : String) :
    Option QuoteP :=
  quotes.find? fun p => quoteMatchesP1 p.name nomineeName

/-! ## CanonicalNominee and CategoryUpdater

A stored nominee record. The scripts read only the name, write only the
per-source odds entry and lastUpdated, and the remaining stored content is
modelled by the oddsOther and extra fields so that frame conditions are
visible. -/

/-- A stored canonical nominee record. oddsPolymarket and oddsKalshi are the
two odds entries the scripts write; oddsOther stands for any other entries
of the odds object and extra for any other field of the record. -/
structure Nominee where
  name : String
  oddsPolymarket : Option String
  oddsKalshi : Option String
  oddsOther : List (String × String)
  lastUpdated : Option String
  extra : List (String × String)
deriving DecidableEq

/-- The effect of the two patch keys index/odds/polymarket and
index/lastUpdated written by update-polymarket.js lines 104-105. -/
def patchPolymarket (odds today : String) (n : Nominee) : Nominee :=
  { n with oddsPolymarket := some odds, lastUpdated := some today }

/-- The effect of the two patch keys index/odds/kalshi and index/lastUpdated
written by update-kalshi-bafta.js lines 111-112. -/
def patchKalshi (odds today : String) (n : Nominee) : Nominee :=
  { n with oddsKalshi := some odds, lastUpdated := some today }

/-- The updates object built by a forEach over the stored list with its
running index, as in update-polymarket.js lines 94-111 and
update-kalshi-bafta.js lines 101-118: one entry per matched nominee index,
carrying the matched odds and the run date. The matcher fm and the odds
projection ov are parameters so that both scripts are instances. -/
def buildUpdatesFrom {β : Type} (fm : String → Option β) (ov : β → String)
    (today : String) : Nat → List Nominee → List (Nat × String × String)
  | _, [] => []
  | k, n :: t =>
    match fm n.name with
    | some q => (k, ov q, today) :: buildUpdatesFrom fm ov today (k+1) t
    | none => buildUpdatesFrom fm ov today (k+1) t

/-- The updates object of update-polymarket.js lines 94-111. -/
def buildUpdates (today : String) (quotes : List Quote)
    (noms : List Nominee) : List (Nat × String × String) :=
  buildUpdatesFrom (findMatch quotes) Quote.odds today 0 noms

/-- The updates object of update-kalshi-bafta.js lines 101-118. -/
def buildUpdatesKalshi (today : String) (quotes : List Quote)
    (noms : List Nominee) : List (Nat × String × String) :=
  buildUpdatesFrom (findMatchKalshi quotes) Quote.odds today 0 noms

/-- The effect of ref.update on the stored list: the record at each index
named by an updates entry has the named odds entry and lastUpdated replaced
through the field patch, every other index is untouched. -/
def applyUpdatesWith (patch : String → String → Nominee → Nominee)
    (ups : List (Nat × String × String)) : Nat → List Nominee → List Nominee
  | _, [] => []
  | k, n :: t =>
    (match ups.find? fun u => u.1 == k with
     | some u => patch u.2.1 u.2.2 n
     | none => n) :: applyUpdatesWith patch ups (k+1) t

/-- The effect of ref.update with the Polymarket patch keys. -/
def applyUpdates (ups : List (Nat × String × String))
    (noms : List Nominee) : List Nominee :=
  applyUpdatesWith patchPolymarket ups 0 noms

/-- The effect of ref.update with the Kalshi patch keys. -/
def applyUpdatesKalshi (ups : List (Nat × String × String))
    (noms : List Nominee) : List Nominee :=
  applyUpdatesWith patchKalshi ups 0 noms

/-- updateCategory from src/scripts/update-polymarket.js lines 67-118,
from the point where the quotes and the stored list are in hand: returns the
stored value afterwards (none when the path held nothing) and whether a
write was issued. -/
def updateCategoryPoly (today : String) (quotes : List Quote)
    (noms : Option (List Nominee)) : Option (List Nominee) × Bool :=
  if quotes.isEmpty then (noms, false)
  else
    match noms with
    | none => (none, false)
    | some ns =>
      let ups := buildUpdates today quotes ns
      if ups.isEmpty then (some ns, false)
      else (some (applyUpdates ups ns), true)

/-- updateCategory from src/scripts/update-kalshi-bafta.js lines 74-125. -/
def updateCategoryKalshi (today : String) (quotes : List Quote)
    (noms : Option (List Nominee)) : Option (List Nominee) × Bool :=
  if quotes.isEmpty then (noms, false)
  else
    match noms with
    | none => (none, false)
    | some ns =>
      let ups := buildUpdatesKalshi today quotes ns
      if ups.isEmpty then (some ns, false)
      else (some (applyUpdatesKalshi ups ns), true)

/-- The map of updateCategory in src/unnamed/part_001 lines 169-191: a
matched nominee gets the matched odds spread into its odds object and a new
lastUpdated, an unmatched one is returned unchanged. -/
def updateNomineesP1 (today : String) (quotes : List QuoteP)
    (noms : List Nominee) : List Nominee :=
  noms.map fun n =>
    match findMatchP1 quotes n.name with
    | some q => { n with oddsPolymarket := some q.odds, lastUpdated := some today }
    | none => n

/-- updateCategory from src/unnamed/part_001 lines 141-196, from the point
where the bulk markets and the stored list are in hand: the final stored
list and whether ref.set was called. -/
def updateCategoryP1 (today : String) (allMarkets : List RawMarket)
    (search : String) (noms : List Nominee) : List Nominee × Bool :=
  let pd := extractNominees allMarkets search
  if pd.isEmpty then (noms, false)
  else if noms.isEmpty then (noms, false)
  else (updateNomineesP1 today pd noms, true)

/-- updateFirebase from the second script in src/scripts/update-polymarket.js
(lines 257-294): exact case-insensitive matching only, whole-list ref.set. -/
def updateFirebaseFC (today : String) (quotes : List Quote)
    (noms : List Nominee) : List Nominee × Bool :=
  if quotes.isEmpty then (noms, false)
  else if noms.isEmpty then (noms, false)
  else
    (noms.map fun n =>
      match quotes.find? fun p => jsToLower p.name == jsToLower n.name with
      | some q => { n with oddsPolymarket := some q.odds, lastUpdated := some today }
      | none => n, true)

/-- The per-category step of main in the second script of
src/scripts/update-polymarket.js (lines 310-316): a null fetch result skips
the update entirely. -/
def mainStepFC (today : String) (res : Option (List Quote))
    (noms : List Nominee) : List Nominee × Bool :=
  match res with
  | none => (noms, false)
  | some qs => updateFirebaseFC today qs noms


/-- The per-record outcome of one updater run on one stored nominee: the
field patch applied with the matched odds when the matcher fires, the record
itself otherwise. -/
def mapMatched {β : Type} (fm : String → Option β) (ov : β → String)
    (today : String) (patch : String → String → Nominee → Nominee)
    (n : Nominee) : Nominee :=
  match fm n.name with
  | some q => patch (ov q) today n
  | none => n


/-! ## Concrete pagination scenario for the two-page stop condition -/

/-- A market with no readable fields, used to populate listing pages in
concrete pagination runs. -/
def blankMarket : RawMarket :=
  ⟨.absent, .absent, none, none⟩

/-- A paginated listing whose first page holds exactly 100 markets and whose
every later page holds 40. -/
def twoPages : Nat → PageResp
  | 0 => .page (some (List.replicate 100 blankMarket))
  | _ + 1 => .page (some (List.replicate 40 blankMarket))

/-! ## Helper lemmas about integer rendering -/

/-- The decimal rendering of a negative integer begins with the minus sign. -/
theorem head_toString_of_neg (n : ℤ) (h : n < 0) :
    (toString n).data.head? = some '-' := by
  match n with
  | Int.ofNat m => exact absurd h (Int.not_lt.mpr (Int.ofNat_nonneg m))
  | Int.negSucc m =>
    show (Int.repr (Int.negSucc m)).data.head? = some '-'
    rw [Int.repr, String.data_append]
    rfl

/-- The two branch values of probToAmericanOdds, as data for sign reasoning:
on the high branch the rounded quotient is at most -100. -/
theorem high_branch_le (p : ℚ) (hhalf : 1/2 ≤ p) (h1 : p < 1) :
    jsRound (-(p * 100) / (1 - p)) ≤ -100 := by
  have hpos : (0 : ℚ) < 1 - p := by linarith
  have hq : -(p * 100) / (1 - p) ≤ -100 := by
    rw [div_le_iff₀ hpos]
    nlinarith
  have : jsRound (-(p * 100) / (1 - p)) ≤ jsRound (-100) := by
    unfold jsRound
    exact Int.floor_le_floor (by linarith)
  have h100 : jsRound (-100 : ℚ) = -100 := by
    unfold jsRound
    rw [Int.floor_eq_iff] <;> norm_num
  omega

/-! ## C1: the odds converter -/

/-- C1: for every probability p in (0,1) the converter returns, when
p >= 0.5, the decimal string of round(-p*100/(1-p)) with no plus sign and a
leading minus sign, and otherwise a plus sign followed by
round((1-p)*100/p); the boundary 0.5 takes the high branch giving -100,
0.745 maps to -292 and 0.255 to +292, and the result begins with a minus
sign exactly when p >= 0.5. -/
theorem probToAmericanOdds_spec (p : ℚ) (h0 : 0 < p) (h1 : p < 1) :
    (1/2 ≤ p → probToAmericanOdds p = toString (jsRound (-(p * 100) / (1 - p)))) ∧
    (p < 1/2 → probToAmericanOdds p = "+" ++ toString (jsRound ((1 - p) * 100 / p))) ∧
    probToAmericanOdds (1/2) = "-100" ∧
    probToAmericanOdds (149/200) = "-292" ∧
    probToAmericanOdds (51/200) = "+292" ∧
    ((probToAmericanOdds p).data.head? = some '-' ↔ 1/2 ≤ p) := by
  refine ⟨?_, ?_, ?_, ?_, ?_, ?_⟩
  · intro h
    rw [probToAmericanOdds, if_pos h]
  · intro h
    rw [probToAmericanOdds, if_neg (by linarith)]
  · have hr : jsRound (-(((1:ℚ)/2) * 100) / (1 - 1/2)) = -100 := by
      unfold jsRound
      rw [Int.floor_eq_iff] <;> norm_num
    rw [probToAmericanOdds, if_pos (by norm_num), hr]
    decide
  · have hr : jsRound (-(((149:ℚ)/200) * 100) / (1 - 149/200)) = -292 := by
      unfold jsRound
      rw [Int.floor_eq_iff] <;> norm_num
    rw [probToAmericanOdds, if_pos (by norm_num), hr]
    decide
  · have hr : jsRound ((1 - (51:ℚ)/200) * 100 / (51/200)) = 292 := by
      unfold jsRound
      rw [Int.floor_eq_iff] <;> norm_num
    rw [probToAmericanOdds, if_neg (by norm_num), hr]
    decide
  · by_cases h : 1/2 ≤ p
    · rw [probToAmericanOdds, if_pos h]
      have hneg : jsRound (-(p * 100) / (1 - p)) < 0 := by
        have := high_branch_le p h h1
        omega
      rw [head_toString_of_neg _ hneg]
      exact iff_of_true rfl h
    · rw [probToAmericanOdds, if_neg h]
      constructor
      · intro hcontra
        rw [String.data_append] at hcontra
        simp at hcontra
      · intro hc
        exact absurd hc h

/-- Witness for C1 at p = 3/4. -/
theorem probToAmericanOdds_spec_witness :
    (0 : ℚ) < 3/4 ∧ (3:ℚ)/4 < 1 ∧
    ((probToAmericanOdds (3/4)).data.head? = some '-' ↔ 1/2 ≤ (3:ℚ)/4) :=
  ⟨by norm_num, by norm_num,
    (probToAmericanOdds_spec (3/4) (by norm_num) (by norm_num)).2.2.2.2.2⟩


/-! ## Helper lemmas -/

/-- Characterization of Array.prototype.find as modelled by List.find?: the
result is a, exactly when the list splits as a block of non-satisfying
elements followed by a, which satisfies the predicate. -/
theorem find?_eq_some_first {α : Type} (p : α → Bool) (l : List α) (a : α) :
    l.find? p = some a ↔
      ∃ l₁ l₂, l = l₁ ++ a :: l₂ ∧ p a = true ∧ ∀ x ∈ l₁, p x = false := by
  induction l with
  | nil => simp
  | cons b t ih =>
    by_cases hb : p b
    · rw [List.find?_cons_of_pos _ hb]
      constructor
      · rintro h
        injection h with h
        exact ⟨[], t, by simp [h], by rw [← h]; exact hb, by simp⟩
      · rintro ⟨l₁, l₂, heq, hpa, hpre⟩
        cases l₁ with
        | nil =>
          injection heq with h1 h2
          rw [h1]
        | cons c cs =>
          injection heq with h1 h2
          exact absurd hb (by rw [h1]; simp [hpre c (by simp)])
    · rw [List.find?_cons_of_neg _ hb, ih]
      constructor
      · rintro ⟨l₁, l₂, heq, hpa, hpre⟩
        refine ⟨b :: l₁, l₂, by rw [heq]; rfl, hpa, ?_⟩
        intro x hx
        rcases List.mem_cons.mp hx with hx | hx
        · rw [hx]; simpa using hb
        · exact hpre x hx
      · rintro ⟨l₁, l₂, heq, hpa, hpre⟩
        cases l₁ with
        | nil =>
          injection heq with h1 h2
          exact absurd hpa (by rw [← h1]; simpa using hb)
        | cons c cs =>
          injection heq with h1 h2
          exact ⟨cs, l₂, h2, hpa, fun x hx => hpre x (by simp [hx])⟩

/-- Every index recorded by buildUpdatesFrom starting at k is at least k. -/
theorem mem_buildUpdatesFrom_ge {β : Type} (fm : String → Option β)
    (ov : β → String) (today : String) :
    ∀ (k : Nat) (t : List Nominee) (u : Nat × String × String),
      u ∈ buildUpdatesFrom fm ov today k t → k ≤ u.1 := by
  intro k t
  induction t generalizing k with
  | nil => intro u hu; simp [buildUpdatesFrom] at hu
  | cons n t ih =>
    intro u hu
    rw [buildUpdatesFrom] at hu
    cases hm : fm n.name with
    | some q =>
      rw [hm] at hu
      rcases List.mem_cons.mp hu with hu | hu
      · rw [hu]
      · have := ih (k+1) u hu
        omega
    | none =>
      rw [hm] at hu
      have := ih (k+1) u hu
      omega

/-- An updates entry whose index is below every index the walk will visit is
never consulted by applyUpdatesWith. -/
theorem applyUpdatesWith_cons_irrel
    (patch : String → String → Nominee → Nominee)
    (e : Nat × String × String) (ups : List (Nat × String × String)) :
    ∀ (j : Nat) (t : List Nominee), e.1 < j →
      applyUpdatesWith patch (e :: ups) j t =
        applyUpdatesWith patch ups j t := by
  intro j t
  induction t generalizing j with
  | nil => intro _; rfl
  | cons n t ih =>
    intro hj
    rw [applyUpdatesWith, applyUpdatesWith]
    rw [List.find?_cons_of_neg _ (by simp only [beq_iff_eq]; omega)]
    rw [ih (j+1) (by omega)]

/-- Applying the updates object built from the stored list coincides with
mapping each nominee through its own match result. -/
theorem applyUpdatesWith_buildUpdatesFrom {β : Type} (fm : String → Option β)
    (ov : β → String) (today : String)
    (patch : String → String → Nominee → Nominee) :
    ∀ (k : Nat) (noms : List Nominee),
      applyUpdatesWith patch (buildUpdatesFrom fm ov today k noms) k noms =
        noms.map (mapMatched fm ov today patch) := by
  intro k noms
  induction noms generalizing k with
  | nil => rfl
  | cons n t ih =>
    rw [buildUpdatesFrom, applyUpdatesWith]
    cases hm : fm n.name with
    | some q =>
      rw [List.find?_cons_of_pos _ (by simp)]
      rw [applyUpdatesWith_cons_irrel patch _ _ (k+1) t (by simp)]
      rw [List.map_cons, ih (k+1)]
      congr 1
      rw [mapMatched, hm]
    | none =>
      have hnone : (buildUpdatesFrom fm ov today (k+1) t).find?
          (fun u => u.1 == k) = none := by
        rw [List.find?_eq_none]
        intro u hu
        have := mem_buildUpdatesFrom_ge fm ov today (k+1) t u hu
        simp only [beq_iff_eq]
        omega
      rw [hnone, List.map_cons, ih (k+1)]
      congr 1
      rw [mapMatched, hm]

/-- The indices recorded by buildUpdatesFrom are strictly increasing. -/
theorem buildUpdatesFrom_indices_sorted {β : Type} (fm : String → Option β)
    (ov : β → String) (today : String) :
    ∀ (k : Nat) (t : List Nominee),
      (buildUpdatesFrom fm ov today k t).Pairwise fun a b => a.1 < b.1 := by
  intro k t
  induction t generalizing k with
  | nil => simp [buildUpdatesFrom]
  | cons n t ih =>
    rw [buildUpdatesFrom]
    cases fm n.name with
    | some q =>
      refine List.Pairwise.cons ?_ (ih (k+1))
      intro u hu
      have := mem_buildUpdatesFrom_ge fm ov today (k+1) t u hu
      simp only
      omega
    | none => exact ih (k+1)

/-- The indices recorded by buildUpdatesFrom contain no duplicate: at most
one updates entry addresses a given stored record. -/
theorem buildUpdatesFrom_indices_nodup {β : Type} (fm : String → Option β)
    (ov : β → String) (today : String) (k : Nat) (t : List Nominee) :
    ((buildUpdatesFrom fm ov today k t).map fun u => u.1).Nodup := by
  have h := buildUpdatesFrom_indices_sorted fm ov today k t
  rw [List.Nodup, List.pairwise_map]
  exact h.imp fun hlt => Nat.ne_of_lt hlt

/-! ## C2: the nominee matcher -/

/-- C2 counterexample: the claim says every matcher uses case-insensitive
substring rules, and cites src/unnamed/part_001 among its sources. Against
canonical name Anna and the single quote ANNABELLE, the case-insensitive
rule of update-polymarket.js matches, since anna is a substring of
annabelle once both are lowered, but the part_001 matcher returns no match,
because its two substring tests run on the original case. -/
theorem matcher_case_cex :
    findMatchP1 [⟨"ANNABELLE", 1/2, "-100"⟩] "Anna" = none ∧
    findMatch [⟨"ANNABELLE", "-100"⟩] "Anna" = some ⟨"ANNABELLE", "-100"⟩ := by
  constructor
  · decide
  · decide

/-- C2 amended: each updater selects, per canonical nominee evaluated
against the full quote list, the first quote in quote-list order satisfying
its own predicate, with no match-quality sorting. In update-polymarket.js
and update-kalshi-bafta.js the predicate is case-insensitive equality or
case-insensitive substring containment in either direction (the two scripts
list the three comparisons in different order, which is equivalent); in
src/unnamed/part_001 the equality is case-insensitive but the substring
tests are case-sensitive. Canonical Tom Hanks matches quote Hanks by the
substring rule, and canonical Anna against quotes Anna, Annabelle matches
the exact-equal first entry. -/
theorem matcher_first_match_spec :
    (∀ (quotes : List Quote) (n : String) (q : Quote),
      findMatch quotes n = some q ↔
        ∃ l₁ l₂, quotes = l₁ ++ q :: l₂ ∧ quoteMatchesCI q.name n = true ∧
          ∀ x ∈ l₁, quoteMatchesCI x.name n = false) ∧
    (∀ (quotes : List Quote) (n : String) (q : Quote),
      findMatchKalshi quotes n = some q ↔
        ∃ l₁ l₂, quotes = l₁ ++ q :: l₂ ∧ quoteMatchesKalshi q.name n = true ∧
          ∀ x ∈ l₁, quoteMatchesKalshi x.name n = false) ∧
    (∀ (quotes : List QuoteP) (n : String) (q : QuoteP),
      findMatchP1 quotes n = some q ↔
        ∃ l₁ l₂, quotes = l₁ ++ q :: l₂ ∧ quoteMatchesP1 q.name n = true ∧
          ∀ x ∈ l₁, quoteMatchesP1 x.name n = false) ∧
    (∀ a b : String, quoteMatchesKalshi a b = quoteMatchesCI a b) ∧
    findMatch [⟨"Hanks", "+100"⟩] "Tom Hanks" = some ⟨"Hanks", "+100"⟩ ∧
    findMatch [⟨"Anna", "+100"⟩, ⟨"Annabelle", "+200"⟩] "Anna" =
      some ⟨"Anna", "+100"⟩ := by
  refine ⟨?_, ?_, ?_, ?_, ?_, ?_⟩
  · intro quotes n q
    exact find?_eq_some_first _ quotes q
  · intro quotes n q
    exact find?_eq_some_first _ quotes q
  · intro quotes n q
    exact find?_eq_some_first _ quotes q
  · intro a b
    simp [quoteMatchesKalshi, quoteMatchesCI, Bool.or_comm, Bool.or_assoc,
      Bool.or_left_comm]
  · decide
  · decide

/-- The replace-based updater map of src/unnamed/part_001, rephrased through
the shared per-record outcome function. -/
theorem updateNomineesP1_eq_map (today : String) (pq : List QuoteP)
    (noms : List Nominee) :
    updateNomineesP1 today pq noms =
      noms.map (mapMatched (findMatchP1 pq) QuoteP.odds today patchPolymarket) := by
  rw [updateNomineesP1]
  refine List.map_congr_left fun n _ => ?_
  rw [mapMatched]
  cases findMatchP1 pq n.name with
  | some q => rfl
  | none => rfl

/-! ## C3: the updater writes only the odds entry and lastUpdated -/

/-- C3: for both patch-based updaters, applying the updates object equals
mapping each stored nominee through its own match result; the stored count
and name order are unchanged; a matched record changes only in the named
odds entry and lastUpdated while the name, the other odds entries and every
other field survive; an unmatched record is returned unchanged; and the
updates object addresses each stored index at most once. The replace-based
updater of src/unnamed/part_001 is the same per-record map, so the same
frame facts hold for it. -/
theorem updateCategory_frame (today : String) (quotes kq : List Quote)
    (pq : List QuoteP) (noms : List Nominee) :
    applyUpdates (buildUpdates today quotes noms) noms =
      noms.map (mapMatched (findMatch quotes) Quote.odds today patchPolymarket) ∧
    applyUpdatesKalshi (buildUpdatesKalshi today kq noms) noms =
      noms.map (mapMatched (findMatchKalshi kq) Quote.odds today patchKalshi) ∧
    updateNomineesP1 today pq noms =
      noms.map (mapMatched (findMatchP1 pq) QuoteP.odds today patchPolymarket) ∧
    (∀ n : Nominee, findMatch quotes n.name = none →
      mapMatched (findMatch quotes) Quote.odds today patchPolymarket n = n) ∧
    (∀ (n : Nominee) (q : Quote), findMatch quotes n.name = some q →
      mapMatched (findMatch quotes) Quote.odds today patchPolymarket n =
        patchPolymarket q.odds today n) ∧
    (applyUpdates (buildUpdates today quotes noms) noms).length = noms.length ∧
    ((applyUpdates (buildUpdates today quotes noms) noms).map fun n => n.name)
      = (noms.map fun n => n.name) ∧
    ((updateNomineesP1 today pq noms).map fun n => n.name)
      = (noms.map fun n => n.name) ∧
    (∀ (odds : String) (n : Nominee),
      (patchPolymarket odds today n).name = n.name ∧
      (patchPolymarket odds today n).oddsKalshi = n.oddsKalshi ∧
      (patchPolymarket odds today n).oddsOther = n.oddsOther ∧
      (patchPolymarket odds today n).extra = n.extra ∧
      (patchPolymarket odds today n).oddsPolymarket = some odds ∧
      (patchPolymarket odds today n).lastUpdated = some today) ∧
    (∀ (odds : String) (n : Nominee),
      (patchKalshi odds today n).name = n.name ∧
      (patchKalshi odds today n).oddsPolymarket = n.oddsPolymarket ∧
      (patchKalshi odds today n).oddsOther = n.oddsOther ∧
      (patchKalshi odds today n).extra = n.extra ∧
      (patchKalshi odds today n).oddsKalshi = some odds ∧
      (patchKalshi odds today n).lastUpdated = some today) ∧
    ((buildUpdates today quotes noms).map fun u => u.1).Nodup ∧
    ((buildUpdatesKalshi today kq noms).map fun u => u.1).Nodup := by
  have h1 : applyUpdates (buildUpdates today quotes noms) noms =
      noms.map (mapMatched (findMatch quotes) Quote.odds today patchPolymarket) :=
    applyUpdatesWith_buildUpdatesFrom (findMatch quotes) Quote.odds
      today patchPolymarket 0 noms
  have h2 : applyUpdatesKalshi (buildUpdatesKalshi today kq noms) noms =
      noms.map (mapMatched (findMatchKalshi kq) Quote.odds today patchKalshi) :=
    applyUpdatesWith_buildUpdatesFrom (findMatchKalshi kq) Quote.odds
      today patchKalshi 0 noms
  have h3 := updateNomineesP1_eq_map today pq noms
  have hname : ∀ (m : Nominee),
      (mapMatched (findMatch quotes) Quote.odds today patchPolymarket m).name
        = m.name := by
    intro m
    rw [mapMatched]
    cases findMatch quotes m.name with
    | some q => rfl
    | none => rfl
  have hnameP1 : ∀ (m : Nominee),
      (mapMatched (findMatchP1 pq) QuoteP.odds today patchPolymarket m).name
        = m.name := by
    intro m
    rw [mapMatched]
    cases findMatchP1 pq m.name with
    | some q => rfl
    | none => rfl
  refine ⟨h1, h2, h3, ?_, ?_, ?_, ?_, ?_, ?_, ?_, ?_, ?_⟩
  · intro n hn
    rw [mapMatched, hn]
  · intro n q hn
    rw [mapMatched, hn]
  · rw [h1, List.length_map]
  · rw [h1, List.map_map]
    exact List.map_congr_left fun n _ => hname n
  · rw [h3, List.map_map]
    exact List.map_congr_left fun n _ => hnameP1 n
  · intro odds n
    exact ⟨rfl, rfl, rfl, rfl, rfl, rfl⟩
  · intro odds n
    exact ⟨rfl, rfl, rfl, rfl, rfl, rfl⟩
  · exact buildUpdatesFrom_indices_nodup _ _ _ 0 noms
  · exact buildUpdatesFrom_indices_nodup _ _ _ 0 noms

/-! ## C10: a run with no match leaves the store as read -/

/-- Under a matcher that matches no stored nominee, the updates object built
by the forEach is empty. -/
theorem buildUpdatesFrom_eq_nil {β : Type} (fm : String → Option β)
    (ov : β → String) (today : String) :
    ∀ (k : Nat) (t : List Nominee), (∀ n ∈ t, fm n.name = none) →
      buildUpdatesFrom fm ov today k t = [] := by
  intro k t
  induction t generalizing k with
  | nil => intro _; rfl
  | cons n t ih =>
    intro h
    rw [buildUpdatesFrom, h n (by simp)]
    exact ih (k+1) fun m hm => h m (by simp [hm])

/-- C10: with a non-empty quote list, a non-empty stored list and no
canonical nominee matching any quote, the patch-based updaters build an
empty updates object and issue no write, returning the stored list as read,
and the replace-based updater of src/unnamed/part_001 writes back a list
equal to the one it read. -/
theorem no_match_no_write (today : String) (quotes kq : List Quote)
    (pq : List QuoteP) (noms : List Nominee)
    (hq : quotes ≠ []) (hk : kq ≠ []) (hp : pq ≠ []) (hn : noms ≠ [])
    (h1 : ∀ n ∈ noms, findMatch quotes n.name = none)
    (h2 : ∀ n ∈ noms, findMatchKalshi kq n.name = none)
    (h3 : ∀ n ∈ noms, findMatchP1 pq n.name = none) :
    buildUpdates today quotes noms = [] ∧
    updateCategoryPoly today quotes (some noms) = (some noms, false) ∧
    buildUpdatesKalshi today kq noms = [] ∧
    updateCategoryKalshi today kq (some noms) = (some noms, false) ∧
    updateNomineesP1 today pq noms = noms := by
  have hb1 : buildUpdates today quotes noms = [] :=
    buildUpdatesFrom_eq_nil _ _ _ 0 noms h1
  have hb2 : buildUpdatesKalshi today kq noms = [] :=
    buildUpdatesFrom_eq_nil _ _ _ 0 noms h2
  refine ⟨hb1, ?_, hb2, ?_, ?_⟩
  · rw [updateCategoryPoly, if_neg (by simp [hq])]
    simp only [hb1]
    rfl
  · rw [updateCategoryKalshi, if_neg (by simp [hk])]
    simp only [hb2]
    rfl
  · rw [updateNomineesP1_eq_map]
    have heach : ∀ n ∈ noms,
        mapMatched (findMatchP1 pq) QuoteP.odds today patchPolymarket n =
          (fun m => m) n := by
      intro n hn2
      rw [mapMatched, h3 n hn2]
    rw [List.map_congr_left heach, List.map_id']

/-- Witness for C10: one quote named Xx against one stored nominee named
Zed, which no rule matches. -/
theorem no_match_no_write_witness :
    ([⟨"Xx", "+100"⟩] : List Quote) ≠ [] ∧
    ([⟨"Xx", 1/2, "+100"⟩] : List QuoteP) ≠ [] ∧
    ([⟨"Zed", none, none, [], none, []⟩] : List Nominee) ≠ [] ∧
    updateCategoryPoly "2026-01-01" [⟨"Xx", "+100"⟩]
      (some [⟨"Zed", none, none, [], none, []⟩]) =
      (some [⟨"Zed", none, none, [], none, []⟩], false) :=
  ⟨by decide, by simp, by decide,
    (no_match_no_write "2026-01-01" [⟨"Xx", "+100"⟩] [⟨"Xx", "+100"⟩]
      [⟨"Xx", 1/2, "+100"⟩] [⟨"Zed", none, none, [], none, []⟩]
      (by decide) (by decide) (by simp) (by decide)
      (by decide) (by decide)
      (by intro n hn; simp only [List.mem_singleton] at hn; rw [hn]; decide)).2.1⟩

/-! ## Helper lemmas about the adapter parsers -/

/-- A quote pushed by the per-market step of fetchPolymarketData never bears
a full-denylist name. -/
theorem parseMarketV1_not_placeholder (m : RawMarket) (q : Quote)
    (h : parseMarketV1 m = some q) : isPlaceholderFull q.name = false := by
  rw [parseMarketV1] at h
  cases hop : m.outcomePrices with
  | absent => simp only [hop] at h; exact Option.noConfusion h
  | malformed => simp only [hop] at h; exact Option.noConfusion h
  | parsed prices =>
    simp only [hop] at h
    cases ht : m.groupItemTitle with
    | none => simp only [ht] at h; exact Option.noConfusion h
    | some name =>
      simp only [ht] at h
      by_cases hpl : isPlaceholderFull name
      · rw [if_pos hpl] at h; exact Option.noConfusion h
      · rw [if_neg hpl] at h
        injection h with h
        rw [← h]
        simpa using hpl

/-- A quote kept by the map-and-filter of fetchCategory never bears a
reduced-denylist name. -/
theorem parseMarketFC_not_placeholder (m : RawMarket) (q : Quote)
    (h : parseMarketFC m = some q) : isPlaceholderFC q.name = false := by
  rw [parseMarketFC] at h
  cases hop : m.outcomePrices with
  | absent => simp only [hop] at h; exact Option.noConfusion h
  | malformed => simp only [hop] at h; exact Option.noConfusion h
  | parsed prices =>
    simp only [hop] at h
    cases ht : m.groupItemTitle with
    | none => simp only [ht] at h; exact Option.noConfusion h
    | some name =>
      simp only [ht] at h
      by_cases hpl : isPlaceholderFC name
      · rw [if_pos hpl] at h; exact Option.noConfusion h
      · rw [if_neg hpl] at h
        injection h with h
        rw [← h]
        simpa using hpl

/-- A quote pushed by the per-market step of extractNominees never bears a
full-denylist name. -/
theorem parseMarketP1_not_placeholder (m : RawMarket) (q : QuoteP)
    (h : parseMarketP1 m = some q) : isPlaceholderFull q.name = false := by
  rw [parseMarketP1] at h
  cases ho : jsonListVal m.outcomes with
  | none => simp only [ho] at h; exact Option.noConfusion h
  | some outcomes =>
    simp only [ho] at h
    cases hp : jsonListVal m.outcomePrices with
    | none => simp only [hp] at h; exact Option.noConfusion h
    | some prices =>
      simp only [hp] at h
      cases hn : m.groupItemTitle.orElse fun _ => outcomes.head? with
      | none => simp only [hn] at h; exact Option.noConfusion h
      | some name =>
        simp only [hn] at h
        cases hh : prices.head? with
        | none => simp only [hh] at h; exact Option.noConfusion h
        | some prob =>
          simp only [hh] at h
          by_cases he : name.isEmpty
          · rw [if_pos he] at h; exact Option.noConfusion h
          · rw [if_neg he] at h
            by_cases hpl : isPlaceholderFull name
            · rw [if_pos hpl] at h; exact Option.noConfusion h
            · rw [if_neg hpl] at h
              injection h with h
              rw [← h]
              simpa using hpl

/-- Every quote returned by fetchPolymarketData passed the full denylist. -/
theorem fetchPolymarketData_not_placeholder (out : FetchOutcome (List Event))
    (q : Quote) (h : q ∈ fetchPolymarketData out) :
    isPlaceholderFull q.name = false := by
  match out with
  | .netError => simp [fetchPolymarketData] at h
  | .response ok none => simp [fetchPolymarketData] at h
  | .response ok (some []) => simp [fetchPolymarketData] at h
  | .response ok (some (e :: es)) =>
    simp only [fetchPolymarketData] at h
    cases hm : e.markets with
    | none => rw [hm] at h; simp at h
    | some ms =>
      rw [hm] at h
      rcases List.mem_filterMap.mp h with ⟨m, _, hparse⟩
      exact parseMarketV1_not_placeholder m q hparse

/-- Every quote returned by extractNominees passed the full denylist. -/
theorem extractNominees_not_placeholder (ms : List RawMarket) (s : String)
    (q : QuoteP) (h : q ∈ extractNominees ms s) :
    isPlaceholderFull q.name = false := by
  simp only [extractNominees] at h
  rw [List.mem_mergeSort] at h
  rcases List.mem_filterMap.mp h with ⟨m, _, hparse⟩
  exact parseMarketP1_not_placeholder m q hparse

/-- Every quote of a non-null fetchCategory result passed the reduced
denylist. -/
theorem fetchCategory_not_placeholder (out : FetchOutcome (List Event))
    (qs : List Quote) (q : Quote) (hout : fetchCategory out = some qs)
    (hq : q ∈ qs) : isPlaceholderFC q.name = false := by
  match out with
  | .netError => simp [fetchCategory] at hout
  | .response false b => simp [fetchCategory] at hout
  | .response true none => simp [fetchCategory] at hout
  | .response true (some []) => simp [fetchCategory] at hout
  | .response true (some (e :: es)) =>
    simp only [fetchCategory] at hout
    cases hm : e.markets with
    | none => simp only [hm] at hout; exact Option.noConfusion hout
    | some ms =>
      cases ms with
      | nil => simp only [hm] at hout; exact Option.noConfusion hout
      | cons m t =>
        simp only [hm] at hout
        by_cases hthrow : (m :: t).any marketThrowsFC
        · rw [if_pos hthrow] at hout; exact Option.noConfusion hout
        · rw [if_neg hthrow] at hout
          injection hout with hout
          rw [← hout] at hq
          rcases List.mem_filterMap.mp hq with ⟨m2, _, hparse⟩
          exact parseMarketFC_not_placeholder m2 q hparse

/-! ## C5: the placeholder denylist -/

/-- C5 counterexample: the claim makes every by-slug and bulk variant
exclude placeholder names such as Movie A, and cites fetchCategory
(update-polymarket.js line 241) and src/unnamed/part_000 among its sources.
fetchCategory filters only Other and Film plus letter, so it returns a
market named Movie A; and the part_000 variant reads the undeclared
variable event, so the caught ReferenceError makes it return the empty
list even for a market named Dune: Part Two, which the claim says is
retained. -/
theorem denylist_variant_cex :
    fetchCategory (.response true
      (some [⟨some [⟨.parsed [7/10], .absent, some "Movie A", none⟩]⟩])) =
      some [⟨"Movie A", probToAmericanOddsOpt (some (7/10))⟩] ∧
    fetchPolymarketDataP000 (.response true
      (some [⟨some [⟨.parsed [7/10], .absent, some "Dune: Part Two", none⟩]⟩]))
      = [] :=
  ⟨rfl, rfl⟩

/-- C5 amended: fetchPolymarketData (by slug, update-polymarket.js) and
extractNominees (bulk, src/unnamed/part_001) exclude every market whose
name matches the full placeholder family, Other or Movie, Actor, Actress,
Director, Film followed by a single letter, case-insensitively, and retain
Dune: Part Two; fetchCategory excludes only Other and Film plus letter and
so retains Movie A; the part_000 variant returns no market at all because
its body reads an undeclared variable. -/
theorem denylist_spec :
    (∀ (out : FetchOutcome (List Event)) (q : Quote),
      q ∈ fetchPolymarketData out → isPlaceholderFull q.name = false) ∧
    (∀ (ms : List RawMarket) (s : String) (q : QuoteP),
      q ∈ extractNominees ms s → isPlaceholderFull q.name = false) ∧
    (∀ (out : FetchOutcome (List Event)) (qs : List Quote) (q : Quote),
      fetchCategory out = some qs → q ∈ qs → isPlaceholderFC q.name = false) ∧
    isPlaceholderFull "Other" = true ∧
    isPlaceholderFull "OTHER" = true ∧
    isPlaceholderFull "Movie A" = true ∧
    isPlaceholderFull "movie a" = true ∧
    isPlaceholderFull "Actor B" = true ∧
    isPlaceholderFull "Dune: Part Two" = false ∧
    isPlaceholderFC "Other" = true ∧
    isPlaceholderFC "Film C" = true ∧
    isPlaceholderFC "Movie A" = false ∧
    fetchPolymarketData (.response true
      (some [⟨some [⟨.parsed [7/10], .absent, some "Dune: Part Two", none⟩]⟩]))
      = [⟨"Dune: Part Two", probToAmericanOddsOpt (some (7/10))⟩] ∧
    (∀ out : FetchOutcome (List Event), fetchPolymarketDataP000 out = []) := by
  refine ⟨fetchPolymarketData_not_placeholder, extractNominees_not_placeholder,
    fetchCategory_not_placeholder, by decide, by decide, by decide, by decide,
    by decide, by decide, by decide, by decide, by decide, rfl, ?_⟩
  intro out
  match out with
  | .netError => rfl
  | .response ok none => rfl
  | .response ok (some []) => rfl
  | .response ok (some (e :: es)) => rfl

/-! ## C4: transport failures yield empty results and are skipped -/

/-- C4 counterexample: the claim says every adapter variant returns an
empty result on a non-success HTTP status, but fetchPolymarketData in
update-polymarket.js never reads response.ok: a failed-status response
whose body still parses to a non-empty event list is processed normally
and yields a non-empty quote list. -/
theorem transport_status_cex :
    fetchPolymarketData (.response false
      (some [⟨some [⟨.parsed [7/10], .absent, some "Dune: Part Two", none⟩]⟩]))
      = [⟨"Dune: Part Two", probToAmericanOddsOpt (some (7/10))⟩] ∧
    [(⟨"Dune: Part Two", probToAmericanOddsOpt (some (7/10))⟩ : Quote)] ≠ [] :=
  ⟨rfl, by simp⟩

/-- C4 amended: on a network error and on an empty or unparseable body,
every adapter variant returns an empty result; on a non-success HTTP status
the fetchCategory, Kalshi and bulk-search variants also return an empty
result (the bulk loop discards everything fetched when any page request
fails), while the by-slug fetchPolymarketData variant ignores the status
flag; and every caller treats an empty result as skip, issuing no write for
that category. -/
theorem transport_failure_spec :
    fetchPolymarketData .netError = [] ∧
    (∀ ok : Bool, fetchPolymarketData (.response ok none) = []) ∧
    fetchCategory .netError = none ∧
    (∀ b : Option (List Event), fetchCategory (.response false b) = none) ∧
    fetchCategory (.response true none) = none ∧
    fetchKalshiData .netError = [] ∧
    (∀ b : Option KalshiResp, fetchKalshiData (.response false b) = []) ∧
    fetchKalshiData (.response true none) = [] ∧
    (∀ (pages : Nat → PageResp) (offset : Nat) (acc : List RawMarket)
      (reqs : Nat), pages offset = .fail →
        fetchGo pages offset acc reqs = ([], reqs + 1)) ∧
    (∀ (today : String) (noms : Option (List Nominee)),
      updateCategoryPoly today [] noms = (noms, false)) ∧
    (∀ (today : String) (noms : Option (List Nominee)),
      updateCategoryKalshi today [] noms = (noms, false)) ∧
    (∀ (today : String) (noms : List Nominee),
      mainStepFC today none noms = (noms, false)) ∧
    (∀ (today s : String) (ms : List RawMarket) (noms : List Nominee),
      extractNominees ms s = [] →
        updateCategoryP1 today ms s noms = (noms, false)) := by
  refine ⟨rfl, fun ok => rfl, rfl, fun b => rfl, rfl, rfl, fun b => rfl, rfl,
    ?_, fun t n => rfl, fun t n => rfl, fun t n => rfl, ?_⟩
  · intro pages offset acc reqs hfail
    rw [fetchGo, hfail]
  · intro today s ms noms hext
    simp [updateCategoryP1, hext]

/-- Witness for C4 amended at a failing first page of the bulk loop. -/
theorem transport_failure_spec_witness :
    ((fun _ : Nat => PageResp.fail) 0 = PageResp.fail) ∧
    fetchGo (fun _ => PageResp.fail) 0 [] 0 = ([], 0 + 1) :=
  ⟨rfl, (transport_failure_spec.2.2.2.2.2.2.2.2.1
    (fun _ => PageResp.fail) 0 [] 0 rfl)⟩

/-! ## C7: per-item skipping of malformed markets -/

/-- C7 counterexample: the claim says every Polymarket variant skips only
the malformed entry and keeps the rest of the batch, but fetchCategory has
no per-item recovery: a batch with one market whose outcomePrices does not
parse returns null even though a second, valid market is present, while the
same valid market alone is returned. -/
theorem batch_abort_cex :
    fetchCategory (.response true
      (some [⟨some [⟨.malformed, .absent, some "Bad", none⟩,
                    ⟨.parsed [7/10], .absent, some "Dune: Part Two", none⟩]⟩]))
      = none ∧
    fetchCategory (.response true
      (some [⟨some [⟨.parsed [7/10], .absent, some "Dune: Part Two", none⟩]⟩]))
      = some [⟨"Dune: Part Two", probToAmericanOddsOpt (some (7/10))⟩] :=
  ⟨rfl, rfl⟩

/-- C7 amended: in fetchPolymarketData and in extractNominees a market with
an unparseable or absent outcomePrices field, an unparseable outcomes
field, or a missing name contributes nothing and removing it from the batch
leaves the result unchanged, so the remaining markets are still parsed and
returned; in fetchCategory, however, any market whose outcomePrices is
absent or unparseable makes the whole batch return null, and only missing
names fail soft there. -/
theorem per_item_skip_spec :
    (∀ m : RawMarket, m.outcomePrices = .malformed ∨
        m.outcomePrices = .absent ∨ m.groupItemTitle = none →
      parseMarketV1 m = none) ∧
    (∀ (ms₁ ms₂ : List RawMarket) (m : RawMarket), parseMarketV1 m = none →
      (ms₁ ++ m :: ms₂).filterMap parseMarketV1 =
        (ms₁ ++ ms₂).filterMap parseMarketV1) ∧
    (∀ m : RawMarket, jsonListVal m.outcomes = none ∨
        jsonListVal m.outcomePrices = none → parseMarketP1 m = none) ∧
    (∀ (s : String) (ms₁ ms₂ : List RawMarket) (m : RawMarket),
      parseMarketP1 m = none →
      extractNominees (ms₁ ++ m :: ms₂) s = extractNominees (ms₁ ++ ms₂) s) ∧
    (∀ (es : List Event) (ms : List RawMarket) (m : RawMarket), m ∈ ms →
      marketThrowsFC m = true →
      fetchCategory (.response true (some (⟨some ms⟩ :: es))) = none) ∧
    (∀ (es : List Event) (m : RawMarket) (ms : List RawMarket),
      (m :: ms).all (fun m2 => !marketThrowsFC m2) = true →
      fetchCategory (.response true (some (⟨some (m :: ms)⟩ :: es))) =
        some ((m :: ms).filterMap parseMarketFC)) := by
  refine ⟨?_, ?_, ?_, ?_, ?_, ?_⟩
  · intro m h
    rw [parseMarketV1]
    rcases h with h | h | h
    · rw [h]
    · rw [h]
    · cases hop : m.outcomePrices with
      | absent => rfl
      | malformed => rfl
      | parsed prices => rw [h]
  · intro ms₁ ms₂ m h
    rw [List.filterMap_append, List.filterMap_append, List.filterMap_cons, h]
  · intro m h
    rw [parseMarketP1]
    rcases h with h | h
    · rw [h]
    · cases ho : jsonListVal m.outcomes with
      | none => rfl
      | some outcomes => rw [h]
  · intro s ms₁ ms₂ m h
    rw [extractNominees, extractNominees, List.filter_append,
      List.filter_append, List.filter_cons]
    by_cases hqm : questionMatches s m
    · rw [if_pos hqm, List.filterMap_append, List.filterMap_append,
        List.filterMap_cons, h]
    · rw [if_neg hqm]
  · intro es ms m hm hthrow
    cases ms with
    | nil => simp at hm
    | cons m0 t =>
      show (if (m0 :: t).any marketThrowsFC then none
            else some ((m0 :: t).filterMap parseMarketFC)) = none
      rw [if_pos (List.any_eq_true.mpr ⟨m, hm, hthrow⟩)]
  · intro es m ms hall
    have hnot : ¬ ((m :: ms).any marketThrowsFC = true) := by
      rw [List.any_eq_true]
      rintro ⟨x, hx, hpx⟩
      have hx2 := List.all_eq_true.mp hall x hx
      rw [hpx] at hx2
      exact Bool.noConfusion hx2
    show (if (m :: ms).any marketThrowsFC then none
          else some ((m :: ms).filterMap parseMarketFC)) =
      some ((m :: ms).filterMap parseMarketFC)
    rw [if_neg hnot]

/-! ## C6: the pagination loop -/

/-- Bounded request count for the pagination loop: with enough of the
500-offset budget already consumed, at most fuel more pages follow the
current request. -/
theorem fetchGo_reqs_le (pages : Nat → PageResp) :
    ∀ (fuel offset : Nat) (acc : List RawMarket) (reqs : Nat),
      500 ≤ offset + 100 * fuel + 100 →
      (fetchGo pages offset acc reqs).2 ≤ reqs + fuel + 1 := by
  intro fuel
  induction fuel with
  | zero =>
    intro offset acc reqs hb
    rw [fetchGo]
    split
    · show reqs + 1 ≤ reqs + 0 + 1
      omega
    · show reqs + 1 ≤ reqs + 0 + 1
      omega
    · show reqs + 1 ≤ reqs + 0 + 1
      omega
    · rename_i ms hnil heq
      by_cases hlen : ms.length < 100
      · rw [if_pos hlen]
      · rw [if_neg hlen]
        rw [if_pos (show 500 ≤ offset + 100 by omega)]
  | succ fuel ih =>
    intro offset acc reqs hb
    rw [fetchGo]
    split
    · show reqs + 1 ≤ reqs + (fuel + 1) + 1
      omega
    · show reqs + 1 ≤ reqs + (fuel + 1) + 1
      omega
    · show reqs + 1 ≤ reqs + (fuel + 1) + 1
      omega
    · rename_i ms hnil heq
      by_cases hlen : ms.length < 100
      · rw [if_pos hlen]
        show reqs + 1 ≤ reqs + (fuel + 1) + 1
        omega
      · rw [if_neg hlen]
        by_cases hoff : 500 ≤ offset + 100
        · rw [if_pos hoff]
          show reqs + 1 ≤ reqs + (fuel + 1) + 1
          omega
        · rw [if_neg hoff]
          exact le_trans (ih (offset + 100) _ (reqs + 1) (by omega)) (by omega)

/-- A reached page with fewer markets than the page size ends the loop at
once, keeping what was accumulated plus the filtered short page. -/
theorem fetchGo_short_page (pages : Nat → PageResp) (offset : Nat)
    (acc : List RawMarket) (reqs : Nat) (ms : List RawMarket)
    (hp : pages offset = .page (some ms)) (hne : ms ≠ [])
    (hlen : ms.length < 100) :
    fetchGo pages offset acc reqs =
      (acc ++ ms.filter isOscarsMarket, reqs + 1) := by
  cases ms with
  | nil => exact absurd rfl hne
  | cons m t =>
    rw [fetchGo, hp]
    show (if (m :: t).length < 100 then
            (acc ++ (m :: t).filter isOscarsMarket, reqs + 1)
          else if 500 ≤ offset + 100 then
            (acc ++ (m :: t).filter isOscarsMarket, reqs + 1)
          else fetchGo pages (offset + 100)
            (acc ++ (m :: t).filter isOscarsMarket) (reqs + 1))
        = (acc ++ (m :: t).filter isOscarsMarket, reqs + 1)
    rw [if_pos hlen]

/-- A reached full page below the offset cap makes the loop continue with
the next offset. -/
theorem fetchGo_full_page (pages : Nat → PageResp) (offset : Nat)
    (acc : List RawMarket) (reqs : Nat) (ms : List RawMarket)
    (hp : pages offset = .page (some ms)) (hlen : ¬ ms.length < 100)
    (hoff : ¬ 500 ≤ offset + 100) :
    fetchGo pages offset acc reqs =
      fetchGo pages (offset + 100) (acc ++ ms.filter isOscarsMarket)
        (reqs + 1) := by
  cases ms with
  | nil => simp at hlen
  | cons m t =>
    rw [fetchGo, hp]
    show (if (m :: t).length < 100 then
            (acc ++ (m :: t).filter isOscarsMarket, reqs + 1)
          else if 500 ≤ offset + 100 then
            (acc ++ (m :: t).filter isOscarsMarket, reqs + 1)
          else fetchGo pages (offset + 100)
            (acc ++ (m :: t).filter isOscarsMarket) (reqs + 1))
        = fetchGo pages (offset + 100)
            (acc ++ (m :: t).filter isOscarsMarket) (reqs + 1)
    rw [if_neg hlen, if_neg hoff]

/-- In the scenario where page one holds exactly 100 markets and page two
holds 40, the run issues exactly two listing requests. -/
theorem twoPages_two_requests : (fetchAllOscarsMarkets twoPages).2 = 2 := by
  rw [fetchAllOscarsMarkets]
  rw [fetchGo_full_page twoPages 0 [] 0 (List.replicate 100 blankMarket) rfl
    (by simp) (by omega)]
  rw [fetchGo_short_page twoPages 100 _ 1 (List.replicate 40 blankMarket) rfl
    (by simp) (by simp)]

/-- C6: the bulk listing loop requests pages of size 100 sequentially and
stops on the first short page or once the offset reaches the 500 cap; the
page one full, page two short scenario issues exactly two requests with no
third one; the loop is a total function, and no run issues more than 5
listing requests. -/
theorem pagination_spec :
    (∀ pages : Nat → PageResp, (fetchAllOscarsMarkets pages).2 ≤ 5) ∧
    (fetchAllOscarsMarkets twoPages).2 = 2 ∧
    (∀ (pages : Nat → PageResp) (offset : Nat) (acc : List RawMarket)
      (reqs : Nat) (ms : List RawMarket), pages offset = .page (some ms) →
      ms ≠ [] → ms.length < 100 →
      fetchGo pages offset acc reqs =
        (acc ++ ms.filter isOscarsMarket, reqs + 1)) := by
  refine ⟨?_, twoPages_two_requests,
    fun pages offset acc reqs ms hp hne hlen =>
      fetchGo_short_page pages offset acc reqs ms hp hne hlen⟩
  intro pages
  have h := fetchGo_reqs_le pages 4 0 [] 0 (by omega)
  rw [fetchAllOscarsMarkets]
  omega

/-! ## C8: the Kalshi converter divides cents by 100 -/

/-- C8: for every integer cents price in the 0 to 100 range, the Kalshi
converter agrees with the probability converter applied to the price over
100, and every quote the Kalshi adapter emits carries odds computed by the
Kalshi converter from the yes price of its market, so division by 100 is
the only numeric transformation before odds conversion. -/
theorem kalshi_conversion_refines (c : ℕ) (h : c ≤ 100) :
    kalshiPriceToAmericanOdds (c : ℚ) = probToAmericanOdds ((c : ℚ) / 100) ∧
    (∀ (m : KalshiMarket) (q : Quote), parseKalshiMarket m = some q →
      ∃ yes : ℚ, m.yes = some yes ∧
        q.odds = kalshiPriceToAmericanOdds yes) := by
  constructor
  · rfl
  · intro m q hq
    rw [parseKalshiMarket] at hq
    cases hn : m.title.orElse fun _ => m.subtitle with
    | none => simp only [hn] at hq; exact Option.noConfusion hq
    | some name =>
      simp only [hn] at hq
      cases hy : m.yes with
      | none => simp only [hy] at hq; exact Option.noConfusion hq
      | some yes =>
        simp only [hy] at hq
        injection hq with hq
        exact ⟨yes, rfl, by rw [← hq]⟩

/-- Witness for C8 at 25 cents. -/
theorem kalshi_conversion_refines_witness :
    (25 : ℕ) ≤ 100 ∧
    kalshiPriceToAmericanOdds ((25 : ℕ) : ℚ) =
      probToAmericanOdds (((25 : ℕ) : ℚ) / 100) :=
  ⟨by norm_num, (kalshi_conversion_refines 25 (by norm_num)).1⟩

/-! ## C9: degenerate probabilities -/

/-- C9 counterexample: the claim says the division has a zero denominator
for every probability at most 0 or at least 1, but at p = 2 the branch
taken divides by 1 - 2 = -1, which is not zero, and the result is finite. -/
theorem degenerate_zero_denominator_cex :
    ¬ (∀ p : ℚ, (p ≤ 0 ∨ 1 ≤ p) → oddsDenominator p = 0) := by
  intro h
  have h2 := h 2 (Or.inr (by norm_num))
  rw [oddsDenominator, if_pos (by norm_num)] at h2
  norm_num at h2

/-- C9 amended: among degenerate probabilities the taken branch divides by
zero exactly at p = 0 and p = 1; the converter has no rejecting or
saturating branch, returning a string through one of its two formulas for
every rational input; and the Kalshi field checks admit markets with a yes
price of 0 or of 100, whose quotes reach the converter as the degenerate
probabilities 0 and 1 after the division by 100. -/
theorem degenerate_inputs_spec :
    oddsDenominator 0 = 0 ∧
    oddsDenominator 1 = 0 ∧
    (∀ p : ℚ, (p ≤ 0 ∨ 1 ≤ p) → (oddsDenominator p = 0 ↔ p = 0 ∨ p = 1)) ∧
    (∀ p : ℚ, probToAmericanOdds p =
        toString (jsRound (-(p * 100) / (1 - p))) ∨
      probToAmericanOdds p = "+" ++ toString (jsRound ((1 - p) * 100 / p))) ∧
    (fetchKalshiData (.response true (some ⟨some
      [⟨some "X", none, some 0⟩, ⟨some "Y", none, some 100⟩]⟩))).map
        (fun q => q.odds)
      = [kalshiPriceToAmericanOdds 0, kalshiPriceToAmericanOdds 100] ∧
    (0 : ℚ) / 100 = 0 ∧ (100 : ℚ) / 100 = 1 := by
  refine ⟨?_, ?_, ?_, ?_, rfl, by norm_num, by norm_num⟩
  · rw [oddsDenominator, if_neg (by norm_num)]
  · rw [oddsDenominator, if_pos (by norm_num)]
    norm_num
  · intro p hp
    rw [oddsDenominator]
    by_cases hc : 1/2 ≤ p
    · rw [if_pos hc]
      constructor
      · intro h0
        right
        linarith
      · rintro (h01 | h01)
        · rw [h01] at hc
          norm_num at hc
        · rw [h01]
          norm_num
    · rw [if_neg hc]
      constructor
      · intro h0
        left
        exact h0
      · rintro (h01 | h01)
        · exact h01
        · rw [h01] at hc
          norm_num at hc
  · intro p
    by_cases hc : 1/2 ≤ p
    · left
      rw [probToAmericanOdds, if_pos hc]
    · right
      rw [probToAmericanOdds, if_neg hc]
